import Mathlib

/-!
Verification development for the OpenBoycott evidence-aggregation subsystem.

The repository has two near-duplicate implementations:
  * `src/openboycottdata/analyze.py` (primary), and
  * `src/analyze_data.py` (variant, suffixed `_b` below).

Shallow embedding conventions:
  * Python floats are modelled as rationals (`ℚ`); `round(x, 3)` is modelled
    as round-half-to-even at 3 decimal places (`round3`).
  * A Python value that may appear as a metric entry is modelled by `RawData`:
    either a list of elements (`Elem`: a number, a numeric string accepted by
    `float`, or a value on which `float` raises) or a non-list value.
  * Code that can raise is modelled in `Except Unit`; `Except.error ()` is an
    exception propagating out of the modelled function.
  * Python dicts are modelled as association lists in insertion order;
    `lookupD` is dict lookup (keys are unique whenever the code builds them).
-/

/-- One element of a metric entry list, as `float()` sees it:
a genuine number, a numeric string (accepted by `float` but not by `sum`),
or a value on which `float` raises `ValueError`/`TypeError`. -/
inductive Elem where
  | num (q : ℚ)
  | numStr (q : ℚ)
  | bad
deriving DecidableEq, Repr

/-- A metric entry as found in a bundle: a Python list of elements, or a
non-list value (wrong shape). -/
inductive RawData where
  | arr (xs : List Elem)
  | nonList
deriving DecidableEq, Repr

/-- An observation: a `(weight, score)` pair of floats. -/
abbrev Obs := ℚ × ℚ

/-- The `combined_metrics` structure of `aggregate_metrics`: issue id to
collected observations, in insertion order. -/
abbrev Combined := List (String × List Obs)

/-- Dict lookup on an association list (first match). -/
def lookupD {γ : Type} (d : List (String × γ)) (i : String) : Option γ :=
  (d.find? (fun p => p.1 = i)).map (fun p => p.2)

/-- `float(x)` on one element: succeeds on numbers and numeric strings,
raises otherwise. -/
def floatElem : Elem → Except Unit ℚ
  | .num q => .ok q
  | .numStr q => .ok q
  | .bad => .error ()

/-- `analyze.py` entry validation: a non-list or wrong-arity entry is skipped
(`continue`); on a 2-element list, `float(data[0]), float(data[1])` runs and
may raise (`Except.error`). -/
def parseEntry : RawData → Except Unit (Option Obs)
  | .arr [a, b] =>
    match floatElem a with
    | .error e => .error e
    | .ok w =>
      match floatElem b with
      | .error e => .error e
      | .ok s => .ok (some (w, s))
  | .arr _ => .ok none
  | .nonList => .ok none

/-- `analyze_data.py` entry validation: same checks, but the `float`
conversion is wrapped in `try/except (ValueError, TypeError): continue`,
so a failing conversion discards the entry instead of raising. -/
def parseEntryB : RawData → Option Obs
  | .arr [a, b] =>
    match floatElem a, floatElem b with
    | .ok w, .ok s => some (w, s)
    | _, _ => none
  | .arr _ => none
  | .nonList => none

/-- `if issue_id not in combined_metrics: combined_metrics[issue_id] = []`. -/
def ensureKey (c : Combined) (i : String) : Combined :=
  if c.any (fun p => p.1 = i) then c else c ++ [(i, [])]

/-- `combined_metrics[issue_id].append([weight, score])`. -/
def appendObs (c : Combined) (i : String) (o : Obs) : Combined :=
  c.map (fun p => if p.1 = i then (p.1, p.2 ++ [o]) else p)

/-- One iteration of the collection loop of `analyze_data.py`
`aggregate_metrics` (never raises). -/
def collectStepB (c : Combined) (item : String × RawData) : Combined :=
  let c1 := ensureKey c item.1
  match parseEntryB item.2 with
  | none => c1
  | some o => appendObs c1 item.1 o

/-- One iteration of the collection loop of `analyze.py` `aggregate_metrics`
(the `float` conversion may raise). -/
def collectStep (c : Combined) (item : String × RawData) : Except Unit Combined :=
  let c1 := ensureKey c item.1
  match parseEntry item.2 with
  | .error e => .error e
  | .ok none => .ok c1
  | .ok (some o) => .ok (appendObs c1 item.1 o)

/-- The inner collection loop of `analyze.py` over one bundle. -/
def collectList (c : Combined) : List (String × RawData) → Except Unit Combined
  | [] => .ok c
  | item :: rest =>
    match collectStep c item with
    | .error e => .error e
    | .ok c2 => collectList c2 rest

/-- The outer collection loop of `analyze.py` over the bundle list. -/
def collectBundles (c : Combined) : List (List (String × RawData)) → Except Unit Combined
  | [] => .ok c
  | b :: rest =>
    match collectList c b with
    | .error e => .error e
    | .ok c2 => collectBundles c2 rest

/-- The collection phase shared shape, using the discarding (`_b`) entry
validation; on inputs where `analyze.py` does not raise, its collection phase
computes exactly this. -/
def collectPure (ms : List (List (String × RawData))) : Combined :=
  ms.foldl (fun c metrics => metrics.foldl collectStepB c) []

/-- `sum(point[0] for point in data_points)`. -/
def totalWeight (pts : List Obs) : ℚ := (pts.map Prod.fst).sum

/-- `sum(point[0] * point[1] for point in data_points)`. -/
def weightedSum (pts : List Obs) : ℚ := (pts.map (fun p => p.1 * p.2)).sum

/-- Round-half-to-even to an integer (the semantics of Python `round` on
exact values). -/
def roundHalfEven (q : ℚ) : ℤ :=
  let f := ⌊q⌋
  let frac := q - f
  if frac < 1/2 then f
  else if 1/2 < frac then f + 1
  else if f % 2 = 0 then f else f + 1

/-- Python `round(q, 3)`. -/
def round3 (q : ℚ) : ℚ := (roundHalfEven (q * 1000) : ℚ) / 1000

/-- The per-issue output step of `analyze.py` `aggregate_metrics`: skip the
issue when it has no data points or when the total weight is `≤ 0`;
otherwise emit `[round(total_weight, 3), round(final_score, 3)]`
(the pair is `(confidence, score)`). -/
def finalizeEntry (pts : List Obs) : Option Obs :=
  if pts.isEmpty then none
  else
    if totalWeight pts ≤ 0 then none
    else some (round3 (totalWeight pts), round3 (weightedSum pts / totalWeight pts))

/-- The aggregated output of `analyze_data.py`: a dict
`{"score": ..., "confidence": ...}` per issue. -/
structure IssueResultB where
  score : ℚ
  confidence : ℚ
deriving DecidableEq, Repr

/-- The per-issue output step of `analyze_data.py` `aggregate_metrics`. -/
def finalizeEntryB (pts : List Obs) : Option IssueResultB :=
  if pts.isEmpty then none
  else
    if totalWeight pts ≤ 0 then none
    else some ⟨round3 (weightedSum pts / totalWeight pts), round3 (totalWeight pts)⟩

/-- The output loop of `aggregate_metrics`: visit `combined_metrics` in
insertion order, append the finalized entry for each issue that passes the
guards. -/
def finalizeWith {γ : Type} (g : List Obs → Option γ) (c : Combined) : List (String × γ) :=
  c.filterMap (fun p => (g p.2).map (fun r => (p.1, r)))

/-- `aggregate_metrics` of `src/openboycottdata/analyze.py` (lines 249-282).
Returns `[confidence, score]` pairs per issue; raises (`Except.error`) iff a
2-element entry holds a value on which `float` raises. -/
def aggregate_metrics (metrics_list : List (List (String × RawData))) :
    Except Unit (List (String × Obs)) :=
  match collectBundles [] metrics_list with
  | .error e => .error e
  | .ok combined => .ok (finalizeWith finalizeEntry combined)

/-- The value `aggregate_metrics` returns whenever it does not raise. -/
def aggregate_metrics_pure (ms : List (List (String × RawData))) : List (String × Obs) :=
  finalizeWith finalizeEntry (collectPure ms)

/-- `aggregate_metrics` of `src/analyze_data.py` (lines 155-193): same
collection but every malformed entry is discarded, and the output is a
`{"score", "confidence"}` dict per issue. Total: it never raises. -/
def aggregate_metrics_b (metrics_list : List (List (String × RawData))) :
    List (String × IssueResultB) :=
  finalizeWith finalizeEntryB (collectPure metrics_list)

/-- `float` raises on this entry inside `analyze.py` `aggregate_metrics`
(a well-arity list with a non-convertible element). -/
def elemBad : Elem → Bool
  | .bad => true
  | _ => false

/-- An entry that makes `analyze.py` `aggregate_metrics` raise. -/
def entryToxic : RawData → Bool
  | .arr [a, b] => elemBad a || elemBad b
  | _ => false

/-- Bundle lists on which `analyze.py` `aggregate_metrics` cannot raise. -/
def NoToxic (ms : List (List (String × RawData))) : Prop :=
  ∀ b ∈ ms, ∀ it ∈ b, entryToxic it.2 = false

/-- The observations the aggregation collects for issue `i`, in traversal
order: entries with key `i` across all bundles that survive validation. -/
def obsOf (ms : List (List (String × RawData))) (i : String) : List Obs :=
  ((ms.flatten).filter (fun it => it.1 = i)).filterMap (fun it => parseEntryB it.2)

/-- The divisors of the divisions that the output loop of `aggregate_metrics`
actually executes (one per issue that passes both guards). -/
def divisorsUsed (c : Combined) : List ℚ :=
  c.filterMap (fun p =>
    if p.2.isEmpty then none
    else if totalWeight p.2 ≤ 0 then none else some (totalWeight p.2))

/-- Observations with key `j` surviving validation, over a flat item list. -/
def obsOfL (l : List (String × RawData)) (j : String) : List Obs :=
  (l.filter (fun it => it.1 = j)).filterMap (fun it => parseEntryB it.2)

/-! ### Retry model (analyze.py retry loops)

The three retry sites of `analyze.py` wrap a remote Gemini call.  The call is
abstracted as `call : ℕ → CallOutcome α` giving the outcome of each attempt;
`parse` abstracts the processing of a successful response and the fallback
value is the defined empty result of the site.  The observable behaviour is a
`RetryResult`: what the function returns or raises, how many attempts were
made and which sleep durations were executed, in order. -/

/-- Outcome of one attempt of the wrapped remote call: a response, a
`google.genai.errors.ClientError` with a status code, or any other
exception. -/
inductive CallOutcome (α : Type) where
  | success (a : α)
  | clientError (code : ℤ)
  | genericError
deriving DecidableEq, Repr

/-- Observable behaviour of a retry loop: the returned value, a propagated
`ClientError`, a propagated non-client exception, or the implicit Python
`None` return when a loop body falls through.  `calls` counts attempts made;
`sleeps` lists the executed sleep durations in seconds, in order. -/
inductive RetryResult (β : Type) where
  | value (v : β) (calls : ℕ) (sleeps : List ℕ)
  | raisedClient (code : ℤ) (calls : ℕ) (sleeps : List ℕ)
  | raisedOther (calls : ℕ) (sleeps : List ℕ)
  | noneValue (calls : ℕ) (sleeps : List ℕ)
deriving DecidableEq, Repr

/-- The retry loop of `ask_about_article` (analyze.py lines 151-198), with
remaining loop iterations as fuel.  A success stores the response and the
loop continues; a non-429 `ClientError` re-raises immediately; a 429 sleeps
`attempt*300 + 60` seconds unless `attempt == 4`, where `{}` is returned;
any other exception retries without sleeping, returning `{}` on the last
attempt.  After the loop the last stored response is parsed (a `NameError`
is raised if no attempt succeeded, modelled `raisedOther`). -/
def ask_about_article_go {α β : Type} (call : ℕ → CallOutcome α) (parse : α → β)
    (emptyDict : β) : ℕ → ℕ → Option α → ℕ → List ℕ → RetryResult β
  | 0, _, resp, calls, sleeps =>
    match resp with
    | some a => .value (parse a) calls sleeps
    | none => .raisedOther calls sleeps
  | fuel + 1, attempt, resp, calls, sleeps =>
    match call attempt with
    | .success a =>
      ask_about_article_go call parse emptyDict fuel (attempt + 1) (some a) (calls + 1) sleeps
    | .clientError code =>
      if code ≠ 429 then .raisedClient code (calls + 1) sleeps
      else if attempt = 4 then .value emptyDict (calls + 1) sleeps
      else
        ask_about_article_go call parse emptyDict fuel (attempt + 1) resp (calls + 1)
          (sleeps ++ [attempt * 300 + 60])
    | .genericError =>
      if attempt = 4 then .value emptyDict (calls + 1) sleeps
      else ask_about_article_go call parse emptyDict fuel (attempt + 1) resp (calls + 1) sleeps

/-- `ask_about_article`: `for attempt in range(5)` starting with no response
recorded. -/
def ask_about_article {α β : Type} (call : ℕ → CallOutcome α) (parse : α → β)
    (emptyDict : β) : RetryResult β :=
  ask_about_article_go call parse emptyDict 5 0 none 0 []

/-- The retry loop of `data_grounded_gemini` (analyze.py lines 383-439):
like `ask_about_article`, except that a successful attempt returns the
parsed response immediately from inside the loop. -/
def data_grounded_gemini_go {α β : Type} (call : ℕ → CallOutcome α) (parse : α → β)
    (emptyDict : β) : ℕ → ℕ → ℕ → List ℕ → RetryResult β
  | 0, _, calls, sleeps => .noneValue calls sleeps
  | fuel + 1, attempt, calls, sleeps =>
    match call attempt with
    | .success a => .value (parse a) (calls + 1) sleeps
    | .clientError code =>
      if code ≠ 429 then .raisedClient code (calls + 1) sleeps
      else if attempt = 4 then .value emptyDict (calls + 1) sleeps
      else
        data_grounded_gemini_go call parse emptyDict fuel (attempt + 1) (calls + 1)
          (sleeps ++ [attempt * 300 + 60])
    | .genericError =>
      if attempt = 4 then .value emptyDict (calls + 1) sleeps
      else data_grounded_gemini_go call parse emptyDict fuel (attempt + 1) (calls + 1) sleeps

/-- `data_grounded_gemini`: `for attempt in range(5)`. -/
def data_grounded_gemini {α β : Type} (call : ℕ → CallOutcome α) (parse : α → β)
    (emptyDict : β) : RetryResult β :=
  data_grounded_gemini_go call parse emptyDict 5 0 0 []

/-- The retry loop of `ask_compeditors` (analyze.py lines 441-481): success
returns the parsed response; on a 429 `ClientError` it sleeps
`300*attempt + 60` and retries while `attempt < 5 - 1`, otherwise falls
through to `raise` (so the final-attempt 429 is re-raised); a non-429
`ClientError` is re-raised immediately; any other exception is logged and
the loop continues; after the loop `[]` is returned. -/
def ask_compeditors_go {α β : Type} (call : ℕ → CallOutcome α) (parse : α → β)
    (emptyList : β) : ℕ → ℕ → ℕ → List ℕ → RetryResult β
  | 0, _, calls, sleeps => .value emptyList calls sleeps
  | fuel + 1, attempt, calls, sleeps =>
    match call attempt with
    | .success a => .value (parse a) (calls + 1) sleeps
    | .clientError code =>
      if code = 429 then
        if attempt < 5 - 1 then
          ask_compeditors_go call parse emptyList fuel (attempt + 1) (calls + 1)
            (sleeps ++ [300 * attempt + 60])
        else .raisedClient code (calls + 1) sleeps
      else .raisedClient code (calls + 1) sleeps
    | .genericError => ask_compeditors_go call parse emptyList fuel (attempt + 1) (calls + 1) sleeps

/-- `ask_compeditors`: `for attempt in range(5)`. -/
def ask_compeditors {α β : Type} (call : ℕ → CallOutcome α) (parse : α → β)
    (emptyList : β) : RetryResult β :=
  ask_compeditors_go call parse emptyList 5 0 0 []

/-! ### Pipeline model (`analyze_companies` of analyze.py)

The three evidence sources and the competitor lookup perform network and LLM
calls; for the pipeline they are abstracted as oracles mapping a company name
to either a returned value or a raised exception.  `analyze_companies` is
modelled as the sequential loop of analyze.py lines 495-562; the event trace
records every source invocation and every `add_data` callback, in execution
order, up to the point where an exception propagates (the `date` field of
the output record is wall-clock time and is outside the model). -/

/-- `string_standard_formatting` (analyze.py lines 23-26): lowercase, strip,
then remove every character outside `[a-z0-9]` (the strip is subsumed by the
filter, since whitespace never matches `[a-z0-9]`). -/
def keepChar (c : Char) : Bool := ('a' ≤ c && c ≤ 'z') || ('0' ≤ c && c ≤ '9')

def string_standard_formatting (s : String) : String :=
  ⟨(s.data.map Char.toLower).filter keepChar⟩

/-- One observable call made while analyzing companies. -/
inductive Event where
  | google (company : String)
  | fmp (company : String)
  | gemini (company : String)
  | competitors (company : String)
  | addData (key : String)
deriving DecidableEq, Repr

/-- Does this event invoke an evidence source or the competitor lookup for
company `c`? -/
def Event.isSourceCallFor : Event → String → Bool
  | .google d, c => d = c
  | .fmp d, c => d = c
  | .gemini d, c => d = c
  | .competitors d, c => d = c
  | .addData _, _ => false

/-- The per-company output record (analyze.py lines 552-558); the `date`
field (wall-clock seconds) is outside the model. -/
structure CompanyRecord where
  metrics : List (String × Obs)
  full_name : String
  competitors : List String
  sources : List String
deriving DecidableEq, Repr

/-- Oracles giving each external call site of the pipeline: what
`data_google`, `data_fmp`, `data_grounded_gemini` and `ask_compeditors`
return for a company, or that they raise. `dataGoogle` returns the
`{"data": ..., "sources": ...}` pair. -/
structure Oracles where
  dataGoogle : String → Except Unit (List (String × RawData) × List String)
  dataFmp : String → Except Unit (List (String × RawData))
  dataGemini : String → Except Unit (List (String × RawData))
  askCompeditors : String → Except Unit (List String)

/-- `sum_weights` (analyze.py lines 483-486): `sum(d[0] for d in
data.values())`; raises when a value is not a list (`TypeError` on
subscript), is empty (`IndexError`), or has a non-number first element
(`TypeError` in `sum`). -/
def sum_weights_go (acc : ℚ) : List (String × RawData) → Except Unit ℚ
  | [] => .ok acc
  | p :: rest =>
    match p.2 with
    | .arr (Elem.num w :: _) => sum_weights_go (acc + w) rest
    | _ => .error ()

def sum_weights (data : List (String × RawData)) : Except Unit ℚ :=
  sum_weights_go 0 data

/-- A bundle value of the shape every evidence source actually produces:
a two-element list of numbers. -/
def wfEntry : RawData → Bool
  | .arr [Elem.num _, Elem.num _] => true
  | _ => false

def WFBundle (b : List (String × RawData)) : Bool := b.all (fun p => wfEntry p.2)

/-- The body of the per-company loop of `analyze_companies` (analyze.py
lines 519-560), after the skip check: fetch Google, FMP and Gemini evidence
in order (each `print(sum_weights(...))` can itself raise), aggregate, fetch
competitors, and build the record keyed by the formatted name when the
aggregated metrics are non-empty.  The second component is the trace of
calls made before returning or raising. -/
def runCompany (o : Oracles) (company : String) :
    Except Unit (Option (String × CompanyRecord)) × List Event :=
  match o.dataGoogle company with
  | .error e => (.error e, [.google company])
  | .ok gres =>
    match sum_weights gres.1 with
    | .error e => (.error e, [.google company])
    | .ok _ =>
      match o.dataFmp company with
      | .error e => (.error e, [.google company, .fmp company])
      | .ok fmp_data =>
        match sum_weights fmp_data with
        | .error e => (.error e, [.google company, .fmp company])
        | .ok _ =>
          match o.dataGemini company with
          | .error e => (.error e, [.google company, .fmp company, .gemini company])
          | .ok gemini_data =>
            match sum_weights gemini_data with
            | .error e => (.error e, [.google company, .fmp company, .gemini company])
            | .ok _ =>
              match aggregate_metrics [gres.1, fmp_data, gemini_data] with
              | .error e => (.error e, [.google company, .fmp company, .gemini company])
              | .ok metrics =>
                match o.askCompeditors company with
                | .error e =>
                  (.error e,
                   [.google company, .fmp company, .gemini company, .competitors company])
                | .ok comps =>
                  if metrics.isEmpty then
                    (.ok none,
                     [.google company, .fmp company, .gemini company, .competitors company])
                  else
                    (.ok (some (string_standard_formatting company,
                        { metrics := metrics, full_name := company, competitors := comps,
                          sources := gres.2 })),
                     [.google company, .fmp company, .gemini company, .competitors company,
                      .addData (string_standard_formatting company)])

/-- The default `skip_company` argument (analyze.py lines 492-493): always
`True`. -/
def empty_function_skip_company (company : String) : Bool := true

/-- Python dict assignment `d[k] = v`: replace in place if the key exists,
else append. -/
def dictInsert (d : List (String × CompanyRecord)) (k : String) (v : CompanyRecord) :
    List (String × CompanyRecord) :=
  if d.any (fun p => p.1 = k) then d.map (fun p => if p.1 = k then (k, v) else p)
  else d ++ [(k, v)]

/-- One iteration of the company loop: once an exception is propagating the
loop is over (state unchanged); a skipped company is a `continue`; otherwise
run the body and store the record, if any. -/
def pipelineStep (o : Oracles) (skip_company : String → Bool)
    (st : Except Unit (List (String × CompanyRecord)) × List Event) (company : String) :
    Except Unit (List (String × CompanyRecord)) × List Event :=
  match st.1 with
  | .error _ => st
  | .ok acc =>
    if skip_company (string_standard_formatting company) then st
    else
      match runCompany o company with
      | (.error e, evs) => (.error e, st.2 ++ evs)
      | (.ok none, evs) => (.ok acc, st.2 ++ evs)
      | (.ok (some kr), evs) => (.ok (dictInsert acc kr.1 kr.2), st.2 ++ evs)

/-- `analyze_companies` (analyze.py lines 495-562) over the oracles: the
returned `all_company_data` mapping (or the propagated exception) together
with the trace of external calls. -/
def analyze_companies (companies : List String) (o : Oracles)
    (skip_company : String → Bool := empty_function_skip_company) :
    Except Unit (List (String × CompanyRecord)) × List Event :=
  companies.foldl (pipelineStep o skip_company) (.ok [], [])

/-! ### Concrete inputs used in witnesses and counterexamples -/

/-- The two-bundle scenario of the spec. -/
def msENV : List (List (String × RawData)) :=
  [[("ENV", RawData.arr [Elem.num 1, Elem.num 80])],
   [("ENV", RawData.arr [Elem.num 1, Elem.num 60])]]

/-- One issue, two observations, both of weight zero. -/
def msZeroW : List (List (String × RawData)) :=
  [[("X", RawData.arr [Elem.num 0, Elem.num 50]),
    ("X", RawData.arr [Elem.num 0, Elem.num 60])]]

/-- Malformed but non-raising entries (a non-list and a wrong-arity list)
next to well-formed observations. -/
def msMixed : List (List (String × RawData)) :=
  [[("ENV", RawData.nonList), ("ENV", RawData.arr [Elem.num 1]),
    ("ENV", RawData.arr [Elem.num 1, Elem.num 80])],
   [("ENV", RawData.arr [Elem.num 1, Elem.num 60])]]

/-- A bundle list containing an entry on which `float` raises. -/
def msToxic : List (List (String × RawData)) :=
  [[("ENV", RawData.arr [Elem.bad, Elem.num 5]),
    ("ENV", RawData.arr [Elem.num 1, Elem.num 80])]]

/-- Two observations of the same issue with scores 60 and 80. -/
def msBounds : List (List (String × RawData)) :=
  [[("X", RawData.arr [Elem.num 1, Elem.num 80]),
    ("X", RawData.arr [Elem.num 1, Elem.num 60])]]

/-- A score whose 3-decimal rounding falls below the minimum observed
score. -/
def msTiny : List (List (String × RawData)) :=
  [[("X", RawData.arr [Elem.num 1, Elem.num (1/10000)])]]

/-- Bundles for the permutation witness. -/
def bundleA : List (String × RawData) := [("ENV", RawData.arr [Elem.num 1, Elem.num 80])]

def bundleB : List (String × RawData) :=
  [("PAY", RawData.arr [Elem.num 2, Elem.num 30]),
   ("ENV", RawData.arr [Elem.num 1, Elem.num 60])]

/-- Oracles whose grounded-model source raises a fatal error while the
Google source returns usable evidence. -/
def oracleGemFails : Oracles where
  dataGoogle := fun _ => .ok ([("ENV", RawData.arr [Elem.num 1, Elem.num 80])], [])
  dataFmp := fun _ => .ok []
  dataGemini := fun _ => .error ()
  askCompeditors := fun _ => .ok []

/-- Oracles that all succeed but produce only a zero-weight observation. -/
def oracleZeroW : Oracles where
  dataGoogle := fun _ => .ok ([("ENV", RawData.arr [Elem.num 0, Elem.num 80])], [])
  dataFmp := fun _ => .ok []
  dataGemini := fun _ => .ok []
  askCompeditors := fun _ => .ok []

/-- Oracles that all succeed with usable evidence. -/
def oracleOk : Oracles where
  dataGoogle := fun _ => .ok ([("ENV", RawData.arr [Elem.num 1, Elem.num 80])], ["somelink"])
  dataFmp := fun _ => .ok []
  dataGemini := fun _ => .ok [("ENV", RawData.arr [Elem.num 1, Elem.num 60])]
  askCompeditors := fun _ => .ok ["CompetitorX"]

/-- Oracles that all succeed with no evidence at all. -/
def oracleEmpty : Oracles where
  dataGoogle := fun _ => .ok ([], [])
  dataFmp := fun _ => .ok []
  dataGemini := fun _ => .ok []
  askCompeditors := fun _ => .ok []

/-- A skip predicate accepting exactly the formatted name `apple`. -/
def skipApple (s : String) : Bool := s = "apple"

/-- A skip predicate that skips nothing. -/
def skipNone (s : String) : Bool := false

/-! ### Dict lookup lemmas -/

theorem lookupD_nil {γ : Type} (i : String) : lookupD ([] : List (String × γ)) i = none := rfl

theorem lookupD_cons {γ : Type} (p : String × γ) (d : List (String × γ)) (i : String) :
    lookupD (p :: d) i = if p.1 = i then some p.2 else lookupD d i := by
  by_cases h : p.1 = i <;> simp [lookupD, List.find?_cons, h]

theorem lookupD_append {γ : Type} (d e : List (String × γ)) (i : String) :
    lookupD (d ++ e) i = (lookupD d i).or (lookupD e i) := by
  induction d with
  | nil => simp [lookupD_nil]
  | cons p d ih =>
    by_cases h : p.1 = i <;> simp [lookupD_cons, h, ih]

theorem lookupD_eq_none_of_not_any {γ : Type} (d : List (String × γ)) (i : String)
    (h : d.any (fun p => p.1 = i) = false) : lookupD d i = none := by
  induction d with
  | nil => rfl
  | cons p d ih =>
    simp only [List.any_cons, Bool.or_eq_false_iff] at h
    have hp : ¬ p.1 = i := by simpa using h.1
    simp [lookupD_cons, hp, ih h.2]

theorem lookupD_isSome_of_any {γ : Type} (d : List (String × γ)) (i : String)
    (h : d.any (fun p => p.1 = i) = true) : (lookupD d i).isSome = true := by
  induction d with
  | nil => simp at h
  | cons p d ih =>
    by_cases hp : p.1 = i
    · simp [lookupD_cons, hp]
    · simp only [List.any_cons, Bool.or_eq_true_iff] at h
      rcases h with h | h
      · simp [hp] at h
      · simp [lookupD_cons, hp, ih h]

/-! ### Collection-phase lemmas -/

theorem lookupD_ensureKey (c : Combined) (i j : String) :
    lookupD (ensureKey c i) j =
      if j = i then some ((lookupD c j).getD []) else lookupD c j := by
  unfold ensureKey
  by_cases hany : c.any (fun p => p.1 = i) = true
  · rw [if_pos hany]
    by_cases hj : j = i
    · rw [if_pos hj]
      have hsome := lookupD_isSome_of_any c i hany
      cases hs : lookupD c j with
      | none => rw [← hj, hs] at hsome; simp at hsome
      | some pts => simp
    · rw [if_neg hj]
  · rw [if_neg hany]
    have hany2 : c.any (fun p => p.1 = i) = false := Bool.eq_false_iff.mpr hany
    rw [lookupD_append]
    by_cases hj : j = i
    · rw [if_pos hj, hj, lookupD_eq_none_of_not_any c i hany2]
      simp [lookupD_cons]
    · have hij : ¬ i = j := fun h => hj h.symm
      have h1 : lookupD [(i, ([] : List Obs))] j = none := by
        simp [lookupD_cons, hij, lookupD_nil]
      rw [h1, if_neg hj]
      cases lookupD c j <;> rfl

theorem lookupD_appendObs (c : Combined) (i : String) (o : Obs) (j : String) :
    lookupD (appendObs c i o) j =
      if j = i then (lookupD c j).map (fun pts => pts ++ [o]) else lookupD c j := by
  induction c with
  | nil => by_cases hj : j = i <;> simp [appendObs, lookupD_nil, hj]
  | cons p c ih =>
    unfold appendObs at ih ⊢
    rw [List.map_cons]
    by_cases hp : p.1 = i
    · rw [if_pos hp]
      by_cases hj : j = i
      · rw [lookupD_cons, lookupD_cons]
        have hpj : p.1 = j := by rw [hp, hj]
        simp only [hpj, if_pos rfl, if_pos hj]
        simp
      · rw [lookupD_cons, lookupD_cons]
        have hpj : ¬ p.1 = j := by rw [hp]; exact fun h => hj h.symm
        rw [if_neg hpj, if_neg hpj, ih, if_neg hj]
    · rw [if_neg hp]
      by_cases hpj : p.1 = j
      · rw [lookupD_cons, lookupD_cons, if_pos hpj, if_pos hpj]
        have hj : ¬ j = i := fun h => hp (hpj.trans h)
        rw [if_neg hj]
      · rw [lookupD_cons, lookupD_cons, if_neg hpj, if_neg hpj, ih]

theorem lookupD_collectStepB (c : Combined) (it : String × RawData) (j : String) :
    lookupD (collectStepB c it) j =
      if j = it.1 then some (((lookupD c j).getD []) ++ (parseEntryB it.2).toList)
      else lookupD c j := by
  unfold collectStepB
  cases hp : parseEntryB it.2 with
  | none =>
    simp only [lookupD_ensureKey]
    by_cases hj : j = it.1 <;> simp [hj]
  | some o =>
    simp only [lookupD_appendObs, lookupD_ensureKey]
    by_cases hj : j = it.1 <;> simp [hj]

theorem lookupD_foldl_collectStepB (l : List (String × RawData)) (c : Combined) (j : String) :
    lookupD (l.foldl collectStepB c) j =
      match lookupD c j with
      | some pts => some (pts ++ obsOfL l j)
      | none => if l.any (fun it => it.1 = j) then some (obsOfL l j) else none := by
  induction l generalizing c with
  | nil =>
    cases h : lookupD c j <;> simp [obsOfL, h]
  | cons it l ih =>
    rw [List.foldl_cons, ih, lookupD_collectStepB]
    by_cases hj : j = it.1
    · rw [if_pos hj]
      have hkey : it.1 = j := hj.symm
      have hobs : obsOfL (it :: l) j = (parseEntryB it.2).toList ++ obsOfL l j := by
        unfold obsOfL
        rw [List.filter_cons, if_pos (by simp [hkey]), List.filterMap_cons]
        cases parseEntryB it.2 <;> simp
      cases h : lookupD c j with
      | none =>
        have hany : (it :: l).any (fun p => p.1 = j) = true := by
          simp [List.any_cons, hkey]
        simp [hobs, hany]
      | some pts => simp [hobs, List.append_assoc]
    · rw [if_neg hj]
      have hkey : ¬ it.1 = j := fun h => hj h.symm
      have hobs : obsOfL (it :: l) j = obsOfL l j := by
        unfold obsOfL
        rw [List.filter_cons, if_neg (by simp [hkey])]
      have hd : decide (it.1 = j) = false := by simp [hkey]
      cases h : lookupD c j with
      | none => simp only [hobs, List.any_cons, hd, Bool.false_or]
      | some pts => simp [hobs]

/-! ### Keys of the combined structure are unique -/

theorem map_fst_appendObs (c : Combined) (i : String) (o : Obs) :
    (appendObs c i o).map Prod.fst = c.map Prod.fst := by
  unfold appendObs
  rw [List.map_map]
  apply List.map_congr_left
  intro p _
  by_cases h : p.1 = i <;> simp [h]

theorem nodupKeys_ensureKey (c : Combined) (i : String) (h : (c.map Prod.fst).Nodup) :
    ((ensureKey c i).map Prod.fst).Nodup := by
  unfold ensureKey
  by_cases hany : c.any (fun p => p.1 = i) = true
  · rw [if_pos hany]; exact h
  · rw [if_neg hany]
    have hnm : i ∉ c.map Prod.fst := by
      intro hm
      rcases List.mem_map.mp hm with ⟨p, hp, hpi⟩
      exact hany (List.any_eq_true.mpr ⟨p, hp, by simp [hpi]⟩)
    have hdisj : (c.map Prod.fst).Disjoint ([(i, ([] : List Obs))].map Prod.fst) := by
      intro a ha hai
      simp only [List.map_cons, List.map_nil, List.mem_singleton] at hai
      exact hnm (hai ▸ ha)
    rw [List.map_append, List.nodup_append]
    exact ⟨h, by simp, hdisj⟩

theorem nodupKeys_collectStepB (c : Combined) (it : String × RawData)
    (h : (c.map Prod.fst).Nodup) : ((collectStepB c it).map Prod.fst).Nodup := by
  unfold collectStepB
  cases parseEntryB it.2 with
  | none => exact nodupKeys_ensureKey c it.1 h
  | some o =>
    rw [map_fst_appendObs]
    exact nodupKeys_ensureKey c it.1 h

theorem nodupKeys_foldl_collectStepB (l : List (String × RawData)) (c : Combined)
    (h : (c.map Prod.fst).Nodup) : ((l.foldl collectStepB c).map Prod.fst).Nodup := by
  induction l generalizing c with
  | nil => exact h
  | cons it l ih => exact ih _ (nodupKeys_collectStepB c it h)

theorem collectPure_eq_flatten_foldl (ms : List (List (String × RawData))) (c : Combined) :
    ms.foldl (fun c metrics => metrics.foldl collectStepB c) c =
      (ms.flatten).foldl collectStepB c := by
  induction ms generalizing c with
  | nil => rfl
  | cons b ms ih =>
    rw [List.foldl_cons, ih, List.flatten_cons, List.foldl_append]

theorem nodupKeys_collectPure (ms : List (List (String × RawData))) :
    ((collectPure ms).map Prod.fst).Nodup := by
  unfold collectPure
  rw [collectPure_eq_flatten_foldl]
  exact nodupKeys_foldl_collectStepB _ [] (by simp)

/-! ### Lookup in the finalized output -/

theorem lookupD_finalizeWith_not_mem {γ : Type} (g : List Obs → Option γ) (c : Combined)
    (i : String) (h : i ∉ c.map Prod.fst) : lookupD (finalizeWith g c) i = none := by
  induction c with
  | nil => rfl
  | cons p c ih =>
    simp only [List.map_cons, List.mem_cons] at h
    push_neg at h
    unfold finalizeWith at ih ⊢
    rw [List.filterMap_cons]
    cases g p.2 with
    | none => exact ih h.2
    | some r =>
      rw [Option.map_some']
      rw [lookupD_cons]
      have : ¬ p.1 = i := fun e => h.1 e.symm
      rw [if_neg this]
      exact ih h.2

theorem lookupD_finalizeWith {γ : Type} (g : List Obs → Option γ) (c : Combined) (i : String)
    (h : (c.map Prod.fst).Nodup) :
    lookupD (finalizeWith g c) i = (lookupD c i).bind g := by
  induction c with
  | nil => rfl
  | cons p c ih =>
    rw [List.map_cons, List.nodup_cons] at h
    cases hg : g p.2 with
    | none =>
      have h1 : finalizeWith g (p :: c) = finalizeWith g c := by
        unfold finalizeWith
        rw [List.filterMap_cons, hg]
        rfl
      rw [h1, lookupD_cons]
      by_cases hp : p.1 = i
      · rw [if_pos hp]
        have hone : i ∉ c.map Prod.fst := hp ▸ h.1
        rw [lookupD_finalizeWith_not_mem g c i hone]
        simp [hg]
      · rw [if_neg hp]
        exact ih h.2
    | some r =>
      have h1 : finalizeWith g (p :: c) = (p.1, r) :: finalizeWith g c := by
        unfold finalizeWith
        rw [List.filterMap_cons, hg]
        rfl
      rw [h1, lookupD_cons, lookupD_cons]
      by_cases hp : p.1 = i
      · rw [if_pos hp, if_pos hp]
        simp [hg]
      · rw [if_neg hp, if_neg hp]
        exact ih h.2

/-- Master characterization: looking up issue `i` in the aggregated output
is the per-issue finalizer applied to the observations collected for `i`. -/
theorem lookupD_aggCore {γ : Type} (g : List Obs → Option γ) (hg : g [] = none)
    (ms : List (List (String × RawData))) (i : String) :
    lookupD (finalizeWith g (collectPure ms)) i = g (obsOf ms i) := by
  rw [lookupD_finalizeWith g _ i (nodupKeys_collectPure ms)]
  unfold collectPure
  rw [collectPure_eq_flatten_foldl, lookupD_foldl_collectStepB, lookupD_nil]
  have hobs : obsOf ms i = obsOfL ms.flatten i := rfl
  by_cases hany : (ms.flatten).any (fun it => it.1 = i) = true
  · simp only [hany, if_true]
    simp [hobs]
  · have hany2 : (ms.flatten).any (fun it => it.1 = i) = false := Bool.eq_false_iff.mpr hany
    simp only [hany2]
    have hnil : obsOfL ms.flatten i = [] := by
      unfold obsOfL
      have : (ms.flatten).filter (fun it => it.1 = i) = [] := by
        rw [List.filter_eq_nil_iff]
        intro a ha
        intro hai
        exact hany (List.any_eq_true.mpr ⟨a, ha, by simpa using hai⟩)
      simp [this]
    simp [hobs, hnil, hg]

theorem lookupD_aggregate_metrics_pure (ms : List (List (String × RawData))) (i : String) :
    lookupD (aggregate_metrics_pure ms) i = finalizeEntry (obsOf ms i) :=
  lookupD_aggCore finalizeEntry rfl ms i

theorem lookupD_aggregate_metrics_b (ms : List (List (String × RawData))) (i : String) :
    lookupD (aggregate_metrics_b ms) i = finalizeEntryB (obsOf ms i) :=
  lookupD_aggCore finalizeEntryB rfl ms i

/-! ### Agreement between the raising and the discarding implementations -/

theorem parseEntry_eq_of_not_toxic (d : RawData) (h : entryToxic d = false) :
    parseEntry d = .ok (parseEntryB d) := by
  cases d with
  | nonList => rfl
  | arr xs =>
    cases xs with
    | nil => rfl
    | cons a t =>
      cases t with
      | nil => rfl
      | cons b t2 =>
        cases t2 with
        | cons cc t3 => rfl
        | nil =>
          cases a <;> cases b <;>
            simp_all [entryToxic, elemBad, parseEntry, parseEntryB, floatElem]

theorem parseEntryB_eq_of_parseEntry_ok (d : RawData) (x : Option Obs)
    (h : parseEntry d = .ok x) : parseEntryB d = x := by
  cases d with
  | nonList => simpa [parseEntry, parseEntryB] using h
  | arr xs =>
    cases xs with
    | nil => simpa [parseEntry, parseEntryB] using h
    | cons a t =>
      cases t with
      | nil => simpa [parseEntry, parseEntryB] using h
      | cons b t2 =>
        cases t2 with
        | cons cc t3 => simpa [parseEntry, parseEntryB] using h
        | nil =>
          cases a <;> cases b <;>
            simp_all [parseEntry, parseEntryB, floatElem]

theorem collectStep_eq_of_not_toxic (c : Combined) (it : String × RawData)
    (h : entryToxic it.2 = false) : collectStep c it = .ok (collectStepB c it) := by
  unfold collectStep collectStepB
  rw [parseEntry_eq_of_not_toxic it.2 h]
  cases parseEntryB it.2 <;> rfl

theorem collectStepB_eq_of_collectStep_ok (c : Combined) (it : String × RawData) (c1 : Combined)
    (h : collectStep c it = .ok c1) : c1 = collectStepB c it := by
  unfold collectStep at h
  unfold collectStepB
  cases hp : parseEntry it.2 with
  | error e => rw [hp] at h; exact absurd h (by simp)
  | ok x =>
    rw [hp] at h
    rw [parseEntryB_eq_of_parseEntry_ok it.2 x hp]
    cases x with
    | none => simpa using h.symm
    | some o => simpa using h.symm

theorem collectList_eq_of_not_toxic (l : List (String × RawData)) (c : Combined)
    (h : ∀ it ∈ l, entryToxic it.2 = false) :
    collectList c l = .ok (l.foldl collectStepB c) := by
  induction l generalizing c with
  | nil => rfl
  | cons it l ih =>
    simp only [collectList]
    rw [collectStep_eq_of_not_toxic c it (h it (List.mem_cons_self it l))]
    exact ih (collectStepB c it) (fun x hx => h x (List.mem_cons_of_mem it hx))

theorem foldl_eq_of_collectList_ok (l : List (String × RawData)) (c c2 : Combined)
    (h : collectList c l = .ok c2) : c2 = l.foldl collectStepB c := by
  induction l generalizing c with
  | nil => simpa [collectList] using h.symm
  | cons it l ih =>
    simp only [collectList] at h
    cases hs : collectStep c it with
    | error e => rw [hs] at h; exact absurd h (by simp)
    | ok c1 =>
      rw [hs] at h
      rw [List.foldl_cons, ← collectStepB_eq_of_collectStep_ok c it c1 hs]
      exact ih c1 h

theorem collectBundles_eq_of_noToxic (ms : List (List (String × RawData))) (c : Combined)
    (h : ∀ b ∈ ms, ∀ it ∈ b, entryToxic it.2 = false) :
    collectBundles c ms = .ok (ms.foldl (fun c metrics => metrics.foldl collectStepB c) c) := by
  induction ms generalizing c with
  | nil => rfl
  | cons b ms ih =>
    simp only [collectBundles]
    rw [collectList_eq_of_not_toxic b c (h b (List.mem_cons_self b ms))]
    exact ih (b.foldl collectStepB c) (fun x hx => h x (List.mem_cons_of_mem b hx))

theorem foldl_eq_of_collectBundles_ok (ms : List (List (String × RawData))) (c c2 : Combined)
    (h : collectBundles c ms = .ok c2) :
    c2 = ms.foldl (fun c metrics => metrics.foldl collectStepB c) c := by
  induction ms generalizing c with
  | nil => simpa [collectBundles] using h.symm
  | cons b ms ih =>
    simp only [collectBundles] at h
    cases hs : collectList c b with
    | error e => rw [hs] at h; exact absurd h (by simp)
    | ok c1 =>
      rw [hs] at h
      rw [List.foldl_cons, ← foldl_eq_of_collectList_ok b c c1 hs]
      exact ih c1 h

/-- When no entry makes `float` raise, `analyze.py` `aggregate_metrics`
returns normally, with the value `aggregate_metrics_pure`. -/
theorem aggregate_metrics_eq_of_noToxic (ms : List (List (String × RawData)))
    (h : NoToxic ms) : aggregate_metrics ms = .ok (aggregate_metrics_pure ms) := by
  unfold aggregate_metrics aggregate_metrics_pure collectPure
  rw [collectBundles_eq_of_noToxic ms [] h]

/-- Whatever `analyze.py` `aggregate_metrics` returns normally is
`aggregate_metrics_pure`. -/
theorem aggregate_metrics_ok_eq (ms : List (List (String × RawData)))
    (r : List (String × Obs)) (h : aggregate_metrics ms = .ok r) :
    r = aggregate_metrics_pure ms := by
  unfold aggregate_metrics at h
  cases hc : collectBundles [] ms with
  | error e => rw [hc] at h; exact absurd h (by simp)
  | ok comb =>
    rw [hc] at h
    have hcomb := foldl_eq_of_collectBundles_ok ms [] comb hc
    have hr : finalizeWith finalizeEntry comb = r := by simpa using h
    rw [← hr, hcomb]
    rfl

/-! ### Rounding error bound -/

theorem roundHalfEven_close (q : ℚ) : |(roundHalfEven q : ℚ) - q| ≤ 1/2 := by
  have h0 : (⌊q⌋ : ℚ) ≤ q := Int.floor_le q
  have h1 : q < ⌊q⌋ + 1 := Int.lt_floor_add_one q
  simp only [roundHalfEven]
  by_cases hlt : q - ⌊q⌋ < 1/2
  · rw [if_pos hlt, abs_le]
    constructor <;> linarith
  · rw [if_neg hlt]
    by_cases hgt : 1/2 < q - ⌊q⌋
    · rw [if_pos hgt, abs_le]
      push_cast
      constructor <;> linarith
    · rw [if_neg hgt]
      have heq : q - ⌊q⌋ = 1/2 := le_antisymm (not_lt.mp hgt) (not_lt.mp hlt)
      by_cases hev : ⌊q⌋ % 2 = 0
      · rw [if_pos hev, abs_le]
        constructor <;> linarith
      · rw [if_neg hev, abs_le]
        push_cast
        constructor <;> linarith

theorem round3_close (q : ℚ) : |round3 q - q| ≤ 1/2000 := by
  have h := roundHalfEven_close (q * 1000)
  have he : round3 q - q = ((roundHalfEven (q * 1000) : ℚ) - q * 1000) / 1000 := by
    unfold round3; ring
  rw [he, abs_div]
  have h1000 : |(1000 : ℚ)| = 1000 := by norm_num
  rw [h1000]
  linarith

theorem roundHalfEven_intCast (n : ℤ) : roundHalfEven (n : ℚ) = n := by
  simp only [roundHalfEven]
  rw [Int.floor_intCast]
  norm_num

theorem round3_of_mul_eq_intCast (q : ℚ) (n : ℤ) (h : q * 1000 = (n : ℚ)) :
    round3 q = (n : ℚ) / 1000 := by
  unfold round3
  rw [h, roundHalfEven_intCast]

/-! ### Weighted mean bounds -/

theorem weightedSum_le_totalWeight_mul (pts : List Obs) (hi : ℚ)
    (hw : ∀ p ∈ pts, 0 ≤ p.1) (hs : ∀ p ∈ pts, p.2 ≤ hi) :
    weightedSum pts ≤ totalWeight pts * hi := by
  unfold weightedSum totalWeight
  have h1 : (pts.map (fun p => p.1 * p.2)).sum ≤ (pts.map (fun p => p.1 * hi)).sum := by
    apply List.sum_le_sum
    intro p hp
    exact mul_le_mul_of_nonneg_left (hs p hp) (hw p hp)
  have h2 : (pts.map (fun p => p.1 * hi)).sum = (pts.map Prod.fst).sum * hi :=
    List.sum_map_mul_right pts Prod.fst hi
  linarith

theorem totalWeight_mul_le_weightedSum (pts : List Obs) (lo : ℚ)
    (hw : ∀ p ∈ pts, 0 ≤ p.1) (hs : ∀ p ∈ pts, lo ≤ p.2) :
    totalWeight pts * lo ≤ weightedSum pts := by
  unfold weightedSum totalWeight
  have h1 : (pts.map (fun p => p.1 * lo)).sum ≤ (pts.map (fun p => p.1 * p.2)).sum := by
    apply List.sum_le_sum
    intro p hp
    exact mul_le_mul_of_nonneg_left (hs p hp) (hw p hp)
  have h2 : (pts.map (fun p => p.1 * lo)).sum = (pts.map Prod.fst).sum * lo :=
    List.sum_map_mul_right pts Prod.fst lo
  linarith

theorem weighted_mean_le (pts : List Obs) (hi : ℚ) (hw : ∀ p ∈ pts, 0 ≤ p.1)
    (hs : ∀ p ∈ pts, p.2 ≤ hi) (hpos : 0 < totalWeight pts) :
    weightedSum pts / totalWeight pts ≤ hi := by
  rw [div_le_iff₀ hpos]
  have := weightedSum_le_totalWeight_mul pts hi hw hs
  linarith [mul_comm (totalWeight pts) hi]

theorem le_weighted_mean (pts : List Obs) (lo : ℚ) (hw : ∀ p ∈ pts, 0 ≤ p.1)
    (hs : ∀ p ∈ pts, lo ≤ p.2) (hpos : 0 < totalWeight pts) :
    lo ≤ weightedSum pts / totalWeight pts := by
  rw [le_div_iff₀ hpos]
  have := totalWeight_mul_le_weightedSum pts lo hw hs
  linarith [mul_comm (totalWeight pts) lo]

/-! ### Permutation invariance of the per-issue aggregation -/

theorem totalWeight_perm (pts1 pts2 : List Obs) (h : pts1.Perm pts2) :
    totalWeight pts1 = totalWeight pts2 := (h.map Prod.fst).sum_eq

theorem weightedSum_perm (pts1 pts2 : List Obs) (h : pts1.Perm pts2) :
    weightedSum pts1 = weightedSum pts2 := by
  unfold weightedSum
  exact (h.map (fun p => p.1 * p.2)).sum_eq

theorem finalizeEntry_perm (pts1 pts2 : List Obs) (h : pts1.Perm pts2) :
    finalizeEntry pts1 = finalizeEntry pts2 := by
  have hie : pts1.isEmpty = pts2.isEmpty := by
    have hlen := h.length_eq
    rcases pts1 with _ | ⟨a, t⟩ <;> rcases pts2 with _ | ⟨b, u⟩ <;> simp_all
  unfold finalizeEntry
  rw [totalWeight_perm pts1 pts2 h, weightedSum_perm pts1 pts2 h, hie]

theorem obsOf_perm (ms1 ms2 : List (List (String × RawData))) (h : ms1.Perm ms2) (i : String) :
    (obsOf ms1 i).Perm (obsOf ms2 i) := by
  unfold obsOf
  exact (h.flatten.filter (fun it => it.1 = i)).filterMap (fun it => parseEntryB it.2)

/-! ### Claim theorems: the Aggregator -/

/-- C1: for every bundle list (no entry on which `float` raises, i.e. every
entry is an observation or a discardable malformed value) and every issue id
whose collected well-formed observations have total weight > 0,
`aggregate_metrics` returns normally and maps that issue to
`(confidence, score) = (round3 (Σ weight), round3 (Σ (weight·score) / Σ weight))`;
in particular on the bundles `[{"ENV": [1, 80]}, {"ENV": [1, 60]}]` it
returns exactly `{"ENV": [2, 70]}`. -/
theorem C1_weighted_mean_formula (ms : List (List (String × RawData))) (i : String)
    (hnt : NoToxic ms) (hpos : 0 < totalWeight (obsOf ms i)) :
    aggregate_metrics ms = Except.ok (aggregate_metrics_pure ms) ∧
    lookupD (aggregate_metrics_pure ms) i =
      some (round3 (totalWeight (obsOf ms i)),
            round3 (weightedSum (obsOf ms i) / totalWeight (obsOf ms i))) ∧
    aggregate_metrics msENV = Except.ok [("ENV", ((2 : ℚ), (70 : ℚ)))] := by
  refine ⟨aggregate_metrics_eq_of_noToxic ms hnt, ?_, ?_⟩
  · rw [lookupD_aggregate_metrics_pure]
    unfold finalizeEntry
    have hne : ¬ ((obsOf ms i).isEmpty = true) := by
      cases hobs : obsOf ms i with
      | nil => rw [hobs] at hpos; simp [totalWeight] at hpos
      | cons a t => simp
    rw [if_neg hne, if_neg (not_le.mpr hpos)]
  · have e2 : round3 (2 : ℚ) = 2 := by
      rw [round3_of_mul_eq_intCast _ 2000 (by norm_num)]; norm_num
    have e70 : round3 (70 : ℚ) = 70 := by
      rw [round3_of_mul_eq_intCast _ 70000 (by norm_num)]; norm_num
    simp [msENV, aggregate_metrics, collectBundles, collectList, collectStep, parseEntry,
      floatElem, ensureKey, appendObs, finalizeWith, finalizeEntry, totalWeight, weightedSum]
    norm_num [e2, e70]

/-- Witness for C1 at the concrete two-bundle scenario. -/
theorem C1_witness :
    lookupD (aggregate_metrics_pure msENV) "ENV" =
      some (round3 (totalWeight (obsOf msENV "ENV")),
            round3 (weightedSum (obsOf msENV "ENV") / totalWeight (obsOf msENV "ENV"))) ∧
    aggregate_metrics msENV = Except.ok [("ENV", ((2 : ℚ), (70 : ℚ)))] := by
  have h := C1_weighted_mean_formula msENV "ENV"
    (by intro b hb it hit; fin_cases hb <;> fin_cases hit <;> rfl)
    (by simp [msENV, obsOf, parseEntryB, floatElem, totalWeight])
  exact ⟨h.2.1, h.2.2⟩

/-- C2: `aggregate_metrics []` is the empty mapping; on bundle lists whose
entries never make `float` raise, every issue whose collected observations
have total weight ≤ 0 is omitted from the result; and every division the
output loop executes has a strictly positive divisor, so the weighted-mean
division can never be a division by zero. -/
theorem C2_zero_weight_safety (ms : List (List (String × RawData))) (i : String)
    (hnt : NoToxic ms) (hle : totalWeight (obsOf ms i) ≤ 0) :
    aggregate_metrics [] = Except.ok [] ∧
    aggregate_metrics ms = Except.ok (aggregate_metrics_pure ms) ∧
    lookupD (aggregate_metrics_pure ms) i = none ∧
    ∀ d ∈ divisorsUsed (collectPure ms), 0 < d := by
  refine ⟨rfl, aggregate_metrics_eq_of_noToxic ms hnt, ?_, ?_⟩
  · rw [lookupD_aggregate_metrics_pure]
    unfold finalizeEntry
    by_cases he : (obsOf ms i).isEmpty = true
    · rw [if_pos he]
    · rw [if_neg he, if_pos hle]
  · intro d hd
    unfold divisorsUsed at hd
    rcases List.mem_filterMap.mp hd with ⟨p, _, hpd⟩
    by_cases h1 : p.2.isEmpty = true
    · rw [if_pos h1] at hpd; exact absurd hpd (by simp)
    · rw [if_neg h1] at hpd
      by_cases h2 : totalWeight p.2 ≤ 0
      · rw [if_pos h2] at hpd; exact absurd hpd (by simp)
      · rw [if_neg h2] at hpd
        have hq : totalWeight p.2 = d := by simpa using hpd
        rw [← hq]
        exact lt_of_not_le h2

/-- Witness for C2 on two zero-weight observations of one issue. -/
theorem C2_witness :
    aggregate_metrics [] = Except.ok [] ∧
    lookupD (aggregate_metrics_pure msZeroW) "X" = none := by
  have h := C2_zero_weight_safety msZeroW "X"
    (by intro b hb it hit; fin_cases hb <;> fin_cases hit <;> rfl)
    (by simp [msZeroW, obsOf, parseEntryB, floatElem, totalWeight])
  exact ⟨h.1, h.2.2.1⟩

/-- C5 counterexample: on a single bundle whose `"ENV"` entry is a
2-element list with a non-numeric first element, the `analyze.py`
`aggregate_metrics` does not discard the entry: the `float` conversion
raises and the exception propagates out of the call. -/
theorem C5_counterexample :
    aggregate_metrics [[("ENV", RawData.arr [Elem.bad, Elem.num 5])]] = Except.error () := by
  simp [aggregate_metrics, collectBundles, collectList, collectStep, parseEntry, floatElem,
    ensureKey, appendObs]

/-- C5 amended: entries that are not lists or not of length 2 are discarded
by both implementations, and the result is the aggregate of the surviving
well-formed observations; but a 2-element entry containing a value on which
`float` raises makes `analyze.py` `aggregate_metrics` raise, while the
`analyze_data.py` variant discards every malformed entry and never raises:
its result on any input is the aggregate of the well-formed observations. -/
theorem C5_amended_discard (ms ms2 : List (List (String × RawData))) (i : String)
    (hnt : NoToxic ms) :
    lookupD (aggregate_metrics_b ms2) i = finalizeEntryB (obsOf ms2 i) ∧
    aggregate_metrics ms = Except.ok (aggregate_metrics_pure ms) ∧
    lookupD (aggregate_metrics_pure ms) i = finalizeEntry (obsOf ms i) :=
  ⟨lookupD_aggregate_metrics_b ms2 i, aggregate_metrics_eq_of_noToxic ms hnt,
   lookupD_aggregate_metrics_pure ms i⟩

/-- Witness for C5 on bundles with a non-list entry and a wrong-arity entry
(discarded without raising) and, for the `analyze_data.py` variant, a bundle
list with a raising entry (also discarded there). -/
theorem C5_witness :
    lookupD (aggregate_metrics_b msToxic) "ENV" = finalizeEntryB (obsOf msToxic "ENV") ∧
    aggregate_metrics msMixed = Except.ok (aggregate_metrics_pure msMixed) := by
  have h := C5_amended_discard msMixed msToxic "ENV"
    (by intro b hb it hit; fin_cases hb <;> fin_cases hit <;> rfl)
  exact ⟨h.1, h.2.1⟩

/-- C6 counterexample: one observation `(1, 1/10000)`; the minimum and
maximum observed score are both `1/10000`, but the returned score is
`round(1/10000, 3) = 0`, strictly below the minimum observed score, so the
returned score does not lie in the closed interval of observed scores. -/
theorem C6_counterexample :
    lookupD (aggregate_metrics_pure msTiny) "X" = some (1, 0) ∧
    ¬ ((1 : ℚ)/10000 ≤ 0) := by
  constructor
  · rw [lookupD_aggregate_metrics_pure]
    have hobs : obsOf msTiny "X" = [(1, 1/10000)] := by
      simp [msTiny, obsOf, parseEntryB, floatElem]
    rw [hobs]
    unfold finalizeEntry totalWeight weightedSum
    have h1 : round3 (1 : ℚ) = 1 := by
      rw [round3_of_mul_eq_intCast _ 1000 (by norm_num)]; norm_num
    have h2 : round3 ((1 : ℚ)/10000) = 0 := by
      unfold round3
      have hm : ((1 : ℚ)/10000) * 1000 = 1/10 := by norm_num
      rw [hm]
      have hr : roundHalfEven ((1 : ℚ)/10) = 0 := by
        simp only [roundHalfEven]
        have hf : ⌊(1 : ℚ)/10⌋ = 0 := by norm_num
        rw [hf]
        norm_num
      rw [hr]
      norm_num
    norm_num [h1, h2]
  · norm_num

/-- C6 amended: under the data-model invariant that every observation has
weight ≥ 0, for every issue with total weight > 0 the unrounded weighted
mean lies in `[lo, hi]` for any bounds `lo ≤ score ≤ hi` on the observed
scores (in particular in `[min observed, max observed]`); the returned
score is that mean rounded to 3 decimals, hence lies within `1/2000` of the
interval — but, as the counterexample shows, it can leave the interval by
up to `1/2000`. -/
theorem C6_amended_mean_bounds (ms : List (List (String × RawData))) (i : String)
    (lo hi : ℚ) (hnt : NoToxic ms)
    (hw : ∀ p ∈ obsOf ms i, 0 ≤ p.1)
    (hpos : 0 < totalWeight (obsOf ms i))
    (hlo : ∀ p ∈ obsOf ms i, lo ≤ p.2)
    (hhi : ∀ p ∈ obsOf ms i, p.2 ≤ hi) :
    aggregate_metrics ms = Except.ok (aggregate_metrics_pure ms) ∧
    lo ≤ weightedSum (obsOf ms i) / totalWeight (obsOf ms i) ∧
    weightedSum (obsOf ms i) / totalWeight (obsOf ms i) ≤ hi ∧
    lookupD (aggregate_metrics_pure ms) i =
      some (round3 (totalWeight (obsOf ms i)),
            round3 (weightedSum (obsOf ms i) / totalWeight (obsOf ms i))) ∧
    lo - 1/2000 ≤ round3 (weightedSum (obsOf ms i) / totalWeight (obsOf ms i)) ∧
    round3 (weightedSum (obsOf ms i) / totalWeight (obsOf ms i)) ≤ hi + 1/2000 := by
  have hm1 := le_weighted_mean (obsOf ms i) lo hw hlo hpos
  have hm2 := weighted_mean_le (obsOf ms i) hi hw hhi hpos
  have hr := abs_le.mp (round3_close (weightedSum (obsOf ms i) / totalWeight (obsOf ms i)))
  refine ⟨aggregate_metrics_eq_of_noToxic ms hnt, hm1, hm2, ?_, by linarith [hr.1], by linarith [hr.2]⟩
  rw [lookupD_aggregate_metrics_pure]
  unfold finalizeEntry
  have hne : ¬ ((obsOf ms i).isEmpty = true) := by
    cases hobs : obsOf ms i with
    | nil => rw [hobs] at hpos; simp [totalWeight] at hpos
    | cons a t => simp
  rw [if_neg hne, if_neg (not_le.mpr hpos)]

/-- Witness for C6 on observations `(1, 80)` and `(1, 60)` with bounds
`[60, 80]`. -/
theorem C6_witness :
    lookupD (aggregate_metrics_pure msBounds) "X" =
      some (round3 (totalWeight (obsOf msBounds "X")),
            round3 (weightedSum (obsOf msBounds "X") / totalWeight (obsOf msBounds "X"))) ∧
    round3 (weightedSum (obsOf msBounds "X") / totalWeight (obsOf msBounds "X")) ≤ 80 + 1/2000 := by
  have hobs : obsOf msBounds "X" = [(1, 80), (1, 60)] := by
    simp [msBounds, obsOf, parseEntryB, floatElem]
  have h := C6_amended_mean_bounds msBounds "X" 60 80
    (by intro b hb it hit; fin_cases hb <;> fin_cases hit <;> rfl)
    (by rw [hobs]; intro p hp; fin_cases hp <;> norm_num)
    (by rw [hobs]; simp [totalWeight])
    (by rw [hobs]; intro p hp; fin_cases hp <;> norm_num)
    (by rw [hobs]; intro p hp; fin_cases hp <;> norm_num)
  exact ⟨h.2.2.2.1, h.2.2.2.2.2⟩

/-- C7: `aggregate_metrics` is order-independent: on bundle lists that are
permutations of each other, whenever both calls return normally the two
results are identical as mappings (the same issues map to the same
confidence and score). -/
theorem C7_order_independent (ms1 ms2 : List (List (String × RawData)))
    (hperm : ms1.Perm ms2) (i : String) (r1 r2 : List (String × Obs))
    (h1 : aggregate_metrics ms1 = Except.ok r1) (h2 : aggregate_metrics ms2 = Except.ok r2) :
    lookupD r1 i = lookupD r2 i := by
  rw [aggregate_metrics_ok_eq ms1 r1 h1, aggregate_metrics_ok_eq ms2 r2 h2,
    lookupD_aggregate_metrics_pure, lookupD_aggregate_metrics_pure]
  exact finalizeEntry_perm _ _ (obsOf_perm ms1 ms2 hperm i)

/-- Witness for C7: swapping two bundles changes the key order of the
output dict but not the mapping. -/
theorem C7_witness :
    lookupD [("ENV", ((2 : ℚ), (70 : ℚ))), ("PAY", ((2 : ℚ), (30 : ℚ)))] "ENV" =
    lookupD [("PAY", ((2 : ℚ), (30 : ℚ))), ("ENV", ((2 : ℚ), (70 : ℚ)))] "ENV" := by
  have e2 : round3 (2 : ℚ) = 2 := by
    rw [round3_of_mul_eq_intCast _ 2000 (by norm_num)]; norm_num
  have e70 : round3 (70 : ℚ) = 70 := by
    rw [round3_of_mul_eq_intCast _ 70000 (by norm_num)]; norm_num
  have e30 : round3 (30 : ℚ) = 30 := by
    rw [round3_of_mul_eq_intCast _ 30000 (by norm_num)]; norm_num
  have hagg1 : aggregate_metrics [bundleA, bundleB] =
      Except.ok [("ENV", ((2 : ℚ), (70 : ℚ))), ("PAY", ((2 : ℚ), (30 : ℚ)))] := by
    simp [bundleA, bundleB, aggregate_metrics, collectBundles, collectList, collectStep,
      parseEntry, floatElem, ensureKey, appendObs, finalizeWith, finalizeEntry,
      totalWeight, weightedSum]
    norm_num [e2, e70, e30]
  have hagg2 : aggregate_metrics [bundleB, bundleA] =
      Except.ok [("PAY", ((2 : ℚ), (30 : ℚ))), ("ENV", ((2 : ℚ), (70 : ℚ)))] := by
    simp [bundleA, bundleB, aggregate_metrics, collectBundles, collectList, collectStep,
      parseEntry, floatElem, ensureKey, appendObs, finalizeWith, finalizeEntry,
      totalWeight, weightedSum]
    norm_num [e2, e70, e30]
  exact C7_order_independent [bundleA, bundleB] [bundleB, bundleA]
    (List.Perm.swap bundleB bundleA []) "ENV" _ _ hagg1 hagg2

/-- C8 counterexample: the single observation `(0, 50)` for issue `"X"` has
total weight 0, so the issue is omitted entirely — the result is `{}`, not
`{"X": {confidence: 0, score: 50}}`. -/
theorem C8_counterexample :
    aggregate_metrics [[("X", RawData.arr [Elem.num 0, Elem.num 50])]] = Except.ok [] := by
  simp [aggregate_metrics, collectBundles, collectList, collectStep, parseEntry, floatElem,
    ensureKey, appendObs, finalizeWith, finalizeEntry, totalWeight, weightedSum]

/-- C8 amended: for a single observation `(w, s)` with `w > 0` and with `w`
and `s` exactly representable at 3 decimal places, the result is exactly
`{"X": [w, s]}` (confidence `w`, score `s`); for `w ≤ 0` the issue is
omitted (see the counterexample), and values needing rounding are altered
by `round(·, 3)`. -/
theorem C8_amended_single_observation (w s : ℚ) (hw : 0 < w)
    (hw3 : round3 w = w) (hs3 : round3 s = s) :
    aggregate_metrics [[("X", RawData.arr [Elem.num w, Elem.num s])]] =
      Except.ok [("X", (w, s))] := by
  have hnt : NoToxic [[("X", RawData.arr [Elem.num w, Elem.num s])]] := by
    intro b hb it hit
    fin_cases hb
    fin_cases hit
    rfl
  rw [aggregate_metrics_eq_of_noToxic _ hnt]
  have hcol : collectPure [[("X", RawData.arr [Elem.num w, Elem.num s])]] =
      [("X", [(w, s)])] := by
    simp [collectPure, collectStepB, parseEntryB, floatElem, ensureKey, appendObs]
  have hfe : finalizeEntry [(w, s)] = some (w, s) := by
    unfold finalizeEntry totalWeight weightedSum
    simp only [List.map_cons, List.map_nil, List.sum_cons, List.sum_nil, add_zero,
      List.isEmpty_cons]
    rw [if_neg (by simp), if_neg (not_le.mpr hw),
      mul_div_cancel_left₀ s (ne_of_gt hw), hw3, hs3]
  unfold aggregate_metrics_pure
  rw [hcol]
  simp [finalizeWith, hfe]

/-- Witness for C8 at `(w, s) = (2, 50)`. -/
theorem C8_witness :
    aggregate_metrics [[("X", RawData.arr [Elem.num 2, Elem.num 50])]] =
      Except.ok [("X", ((2 : ℚ), (50 : ℚ)))] :=
  C8_amended_single_observation 2 50 (by norm_num)
    (by rw [round3_of_mul_eq_intCast _ 2000 (by norm_num)]; norm_num)
    (by rw [round3_of_mul_eq_intCast _ 50000 (by norm_num)]; norm_num)

/-! ### Claim theorems: retry behaviour -/

/-- C3 counterexample: at the competitor-lookup retry site
(`ask_compeditors`), a call that signals a rate-limit (429) error on every
attempt is retried 5 times with sleeps `[60, 360, 660, 960]`, but after the
final attempt the 429 error is re-raised instead of returning the `[]`
fallback — the claim that every retry site returns the fallback after the
final attempt is false. -/
theorem C3_counterexample :
    ask_compeditors (fun _ => CallOutcome.clientError 429)
        (fun (_ : Unit) => ([] : List String)) [] =
      RetryResult.raisedClient 429 5 [60, 360, 660, 960] := rfl

/-- C3 amended: on a call that signals a rate-limit (429) error on every
attempt, each retry site makes exactly 5 attempts with sleeps
`[60, 360, 660, 960]` between consecutive attempts (none after the final
one); `ask_about_article` and `data_grounded_gemini` then log and return
the empty fallback, but `ask_compeditors` re-raises the 429 after the final
attempt (its `[]` fallback applies only to non-client exceptions); a
non-429 client error propagates immediately, after a single attempt and no
sleep, at all three sites. -/
theorem C3_amended_retry_behaviour {α β : Type} (parse : α → β) (emptyv : β) (code : ℤ)
    (h : code ≠ 429) :
    ask_about_article (fun _ => CallOutcome.clientError 429) parse emptyv =
      RetryResult.value emptyv 5 [60, 360, 660, 960] ∧
    data_grounded_gemini (fun _ => CallOutcome.clientError 429) parse emptyv =
      RetryResult.value emptyv 5 [60, 360, 660, 960] ∧
    ask_compeditors (fun _ => CallOutcome.clientError 429) parse emptyv =
      RetryResult.raisedClient 429 5 [60, 360, 660, 960] ∧
    ask_about_article (fun _ => CallOutcome.clientError code) parse emptyv =
      RetryResult.raisedClient code 1 [] ∧
    data_grounded_gemini (fun _ => CallOutcome.clientError code) parse emptyv =
      RetryResult.raisedClient code 1 [] ∧
    ask_compeditors (fun _ => CallOutcome.clientError code) parse emptyv =
      RetryResult.raisedClient code 1 [] := by
  refine ⟨rfl, rfl, rfl, ?_, ?_, ?_⟩
  · simp [ask_about_article, ask_about_article_go, h]
  · simp [data_grounded_gemini, data_grounded_gemini_go, h]
  · simp [ask_compeditors, ask_compeditors_go, h]

/-- Witness for C3 amended at the non-429 client error 400 and the
always-429 competitor lookup. -/
theorem C3_witness :
    ask_about_article (fun _ => CallOutcome.clientError 400) (fun (x : Unit) => x) () =
      RetryResult.raisedClient 400 1 [] ∧
    ask_compeditors (fun _ => CallOutcome.clientError 429) (fun (x : Unit) => x) () =
      RetryResult.raisedClient 429 5 [60, 360, 660, 960] := by
  have h := C3_amended_retry_behaviour (fun (x : Unit) => x) () 400 (by decide)
  exact ⟨h.2.2.2.1, h.2.2.1⟩

/-! ### Pipeline lemmas -/

theorem pipelineStep_error (o : Oracles) (skip_company : String → Bool)
    (st : Except Unit (List (String × CompanyRecord)) × List Event) (d : String)
    (h : st.1 = Except.error ()) : pipelineStep o skip_company st d = st := by
  unfold pipelineStep
  rw [h]

theorem analyze_foldl_error (o : Oracles) (skip_company : String → Bool) (l : List String)
    (st : Except Unit (List (String × CompanyRecord)) × List Event)
    (h : st.1 = Except.error ()) :
    (l.foldl (pipelineStep o skip_company) st).1 = Except.error () := by
  induction l generalizing st with
  | nil => exact h
  | cons d l ih =>
    rw [List.foldl_cons, pipelineStep_error o skip_company st d h]
    exact ih st h

theorem runCompany_error_of_gemini_error (o : Oracles) (c : String)
    (h : o.dataGemini c = Except.error ()) : (runCompany o c).1 = Except.error () := by
  unfold runCompany
  cases hx1 : o.dataGoogle c with
  | error e1 => simp
  | ok gres =>
    dsimp only
    cases hx2 : sum_weights gres.1 with
    | error e1 => rfl
    | ok q1 =>
      dsimp only
      cases hx3 : o.dataFmp c with
      | error e1 => rfl
      | ok fmp =>
        dsimp only
        cases hx4 : sum_weights fmp with
        | error e1 => rfl
        | ok q2 =>
          dsimp only
          rw [h]

theorem analyze_foldl_error_of_mem (o : Oracles) (skip_company : String → Bool) (c : String)
    (hskip : skip_company (string_standard_formatting c) = false)
    (hrun : (runCompany o c).1 = Except.error ()) :
    ∀ (l : List String), c ∈ l →
      ∀ st, (l.foldl (pipelineStep o skip_company) st).1 = Except.error () := by
  intro l
  induction l with
  | nil => intro hc; simp at hc
  | cons d l ih =>
    intro hc st
    rw [List.foldl_cons]
    rcases List.mem_cons.mp hc with hdc | hmem
    · subst hdc
      cases hst : st.1 with
      | error e1 =>
        cases e1
        rw [pipelineStep_error o skip_company st c hst]
        exact analyze_foldl_error o skip_company l st hst
      | ok acc =>
        apply analyze_foldl_error
        unfold pipelineStep
        rw [hst]
        dsimp only
        rw [if_neg (by simp [hskip])]
        rcases hr : runCompany o c with ⟨r1, evs⟩
        rw [hr] at hrun
        simp at hrun
        rw [hrun]
    · exact ih hmem _

theorem wfEntry_shape (d : RawData) (h : wfEntry d = true) :
    ∃ w s, d = RawData.arr [Elem.num w, Elem.num s] := by
  cases d with
  | nonList => simp [wfEntry] at h
  | arr xs =>
    cases xs with
    | nil => simp [wfEntry] at h
    | cons a t =>
      cases t with
      | nil => cases a <;> simp [wfEntry] at h
      | cons b t2 =>
        cases t2 with
        | cons cc t3 => simp [wfEntry] at h
        | nil =>
          cases a with
          | num w =>
            cases b with
            | num s => exact ⟨w, s, rfl⟩
            | numStr s => simp [wfEntry] at h
            | bad => simp [wfEntry] at h
          | numStr w => simp [wfEntry] at h
          | bad => simp [wfEntry] at h

theorem noToxic_of_wf (bs : List (List (String × RawData)))
    (h : ∀ b ∈ bs, WFBundle b = true) : NoToxic bs := by
  intro b hb it hit
  have hall := h b hb
  unfold WFBundle at hall
  have hwf := List.all_eq_true.mp hall it hit
  rcases wfEntry_shape it.2 (by simpa using hwf) with ⟨w, s, hd⟩
  rw [hd]
  rfl

theorem sum_weights_go_ok (b : List (String × RawData)) (h : WFBundle b = true) :
    ∀ acc : ℚ, ∃ q, sum_weights_go acc b = Except.ok q := by
  induction b with
  | nil => exact fun acc => ⟨acc, rfl⟩
  | cons p rest ih =>
    intro acc
    unfold WFBundle at h ih
    rw [List.all_cons, Bool.and_eq_true] at h
    rcases wfEntry_shape p.2 (by simpa using h.1) with ⟨w, s, hd⟩
    unfold sum_weights_go
    rw [hd]
    exact ih h.2 (acc + w)

theorem sum_weights_ok (b : List (String × RawData)) (h : WFBundle b = true) :
    ∃ q, sum_weights b = Except.ok q := sum_weights_go_ok b h 0

theorem lookupD_map_replace (dd : List (String × CompanyRecord)) (k j : String)
    (v : CompanyRecord) (h : ¬ k = j) :
    lookupD (dd.map (fun p => if p.1 = k then (k, v) else p)) j = lookupD dd j := by
  induction dd with
  | nil => rfl
  | cons p rest ih =>
    rw [List.map_cons]
    by_cases hp : p.1 = k
    · rw [if_pos hp, lookupD_cons, lookupD_cons]
      have h2 : ¬ p.1 = j := by rw [hp]; exact h
      rw [if_neg h, if_neg h2]
      exact ih
    · rw [if_neg hp, lookupD_cons, lookupD_cons]
      by_cases hpj : p.1 = j
      · rw [if_pos hpj, if_pos hpj]
      · rw [if_neg hpj, if_neg hpj]
        exact ih

theorem lookupD_dictInsert_ne (dd : List (String × CompanyRecord)) (k j : String)
    (v : CompanyRecord) (h : ¬ k = j) : lookupD (dictInsert dd k v) j = lookupD dd j := by
  unfold dictInsert
  by_cases hany : dd.any (fun p => p.1 = k) = true
  · rw [if_pos hany]
    exact lookupD_map_replace dd k j v h
  · rw [if_neg hany, lookupD_append]
    have h1 : lookupD [(k, v)] j = none := by
      simp [lookupD_cons, h, lookupD_nil]
    rw [h1]
    cases lookupD dd j <;> rfl

theorem runCompany_events (o : Oracles) (d : String) (e : Event)
    (he : e ∈ (runCompany o d).2) :
    e = Event.google d ∨ e = Event.fmp d ∨ e = Event.gemini d ∨
      e = Event.competitors d ∨ e = Event.addData (string_standard_formatting d) := by
  unfold runCompany at he
  cases hx1 : o.dataGoogle d with
  | error e1 => rw [hx1] at he; simp at he; tauto
  | ok gres =>
    rw [hx1] at he
    dsimp only at he
    cases hx2 : sum_weights gres.1 with
    | error e1 => rw [hx2] at he; simp at he; tauto
    | ok q1 =>
      rw [hx2] at he
      dsimp only at he
      cases hx3 : o.dataFmp d with
      | error e1 => rw [hx3] at he; simp at he; tauto
      | ok fmp =>
        rw [hx3] at he
        dsimp only at he
        cases hx4 : sum_weights fmp with
        | error e1 => rw [hx4] at he; simp at he; tauto
        | ok q2 =>
          rw [hx4] at he
          dsimp only at he
          cases hx5 : o.dataGemini d with
          | error e1 => rw [hx5] at he; simp at he; tauto
          | ok gem =>
            rw [hx5] at he
            dsimp only at he
            cases hx6 : sum_weights gem with
            | error e1 => rw [hx6] at he; simp at he; tauto
            | ok q3 =>
              rw [hx6] at he
              dsimp only at he
              cases hx7 : aggregate_metrics [gres.1, fmp, gem] with
              | error e1 => rw [hx7] at he; simp at he; tauto
              | ok mets =>
                rw [hx7] at he
                dsimp only at he
                cases hx8 : o.askCompeditors d with
                | error e1 => rw [hx8] at he; simp at he; tauto
                | ok comps =>
                  rw [hx8] at he
                  dsimp only at he
                  by_cases hie : mets.isEmpty = true
                  · rw [if_pos hie] at he; simp at he; tauto
                  · rw [if_neg hie] at he; simp at he; tauto

theorem runCompany_some_key (o : Oracles) (d : String) (kr : String × CompanyRecord)
    (evs : List Event) (h : runCompany o d = (Except.ok (some kr), evs)) :
    kr.1 = string_standard_formatting d := by
  rcases kr with ⟨k1, rec1⟩
  unfold runCompany at h
  cases hx1 : o.dataGoogle d with
  | error e1 => rw [hx1] at h; simp at h
  | ok gres =>
    rw [hx1] at h; dsimp only at h
    cases hx2 : sum_weights gres.1 with
    | error e1 => rw [hx2] at h; simp at h
    | ok q1 =>
      rw [hx2] at h; dsimp only at h
      cases hx3 : o.dataFmp d with
      | error e1 => rw [hx3] at h; simp at h
      | ok fmp =>
        rw [hx3] at h; dsimp only at h
        cases hx4 : sum_weights fmp with
        | error e1 => rw [hx4] at h; simp at h
        | ok q2 =>
          rw [hx4] at h; dsimp only at h
          cases hx5 : o.dataGemini d with
          | error e1 => rw [hx5] at h; simp at h
          | ok gem =>
            rw [hx5] at h; dsimp only at h
            cases hx6 : sum_weights gem with
            | error e1 => rw [hx6] at h; simp at h
            | ok q3 =>
              rw [hx6] at h; dsimp only at h
              cases hx7 : aggregate_metrics [gres.1, fmp, gem] with
              | error e1 => rw [hx7] at h; simp at h
              | ok mets =>
                rw [hx7] at h; dsimp only at h
                cases hx8 : o.askCompeditors d with
                | error e1 => rw [hx8] at h; simp at h
                | ok comps =>
                  rw [hx8] at h; dsimp only at h
                  by_cases hie : mets.isEmpty = true
                  · rw [if_pos hie] at h; simp at h
                  · rw [if_neg hie] at h
                    simp at h
                    exact h.1.1.symm

/-! ### Claim theorems: the pipeline -/

/-- C4 counterexample: with a source list of two companies and oracles where
the Google source returns usable evidence but the grounded-Gemini source
raises a fatal (non-retryable) error, `analyze_companies` aborts: the
exception propagates, the first company yields no record despite the
evidence from the remaining sources, and the second company is never
processed — contradicting the claim that a single-source failure aborts
only that source's call. -/
theorem C4_counterexample :
    analyze_companies ["Acme", "Beta"] oracleGemFails skipNone =
      (Except.error (), [Event.google "Acme", Event.fmp "Acme", Event.gemini "Acme"]) := rfl

/-- C4 amended: a fatal error inside a single evidence source propagates
out of `analyze_companies` and aborts the whole pipeline (no record for
that company nor for any later company); when every source call returns
(well-formed bundles), the company is dropped — yields no record — exactly
when the aggregated metrics mapping is empty. -/
theorem C4_amended_source_failure (o o2 : Oracles) (skip_company : String → Bool)
    (companies : List String) (c c2 : String)
    (hmem : c ∈ companies) (hskip : skip_company (string_standard_formatting c) = false)
    (hgem : o.dataGemini c = Except.error ())
    (g : List (String × RawData) × List String) (f m : List (String × RawData))
    (comps : List String)
    (hg : o2.dataGoogle c2 = Except.ok g) (hf : o2.dataFmp c2 = Except.ok f)
    (hm : o2.dataGemini c2 = Except.ok m) (hcomp : o2.askCompeditors c2 = Except.ok comps)
    (hwf1 : WFBundle g.1 = true) (hwf2 : WFBundle f = true) (hwf3 : WFBundle m = true) :
    (analyze_companies companies o skip_company).1 = Except.error () ∧
    ((runCompany o2 c2).1 = Except.ok none ↔ aggregate_metrics_pure [g.1, f, m] = []) := by
  constructor
  · exact analyze_foldl_error_of_mem o skip_company c hskip
      (runCompany_error_of_gemini_error o c hgem) companies hmem (Except.ok [], [])
  · have hnt : NoToxic [g.1, f, m] := by
      apply noToxic_of_wf
      intro b hb
      simp at hb
      rcases hb with hb | hb | hb <;> rw [hb] <;> assumption
    unfold runCompany
    rw [hg]
    dsimp only
    rcases sum_weights_ok g.1 hwf1 with ⟨q1, hq1⟩
    rw [hq1]
    dsimp only
    rw [hf]
    dsimp only
    rcases sum_weights_ok f hwf2 with ⟨q2, hq2⟩
    rw [hq2]
    dsimp only
    rw [hm]
    dsimp only
    rcases sum_weights_ok m hwf3 with ⟨q3, hq3⟩
    rw [hq3]
    dsimp only
    rw [aggregate_metrics_eq_of_noToxic _ hnt]
    dsimp only
    rw [hcomp]
    dsimp only
    by_cases hie : (aggregate_metrics_pure [g.1, f, m]).isEmpty = true
    · rw [if_pos hie]
      simp [List.isEmpty_iff.mp hie]
    · rw [if_neg hie]
      have hne : aggregate_metrics_pure [g.1, f, m] ≠ [] := by
        intro hnil
        exact hie (by simp [hnil])
      simp [hne]

/-- Witness for C4 amended: the aborting run on `oracleGemFails` and the
dropped-company equivalence on all-zero-weight evidence. -/
theorem C4_witness :
    (analyze_companies ["Acme"] oracleGemFails skipNone).1 = Except.error () ∧
    ((runCompany oracleZeroW "Zed").1 = Except.ok none ↔
      aggregate_metrics_pure [[("ENV", RawData.arr [Elem.num 0, Elem.num 80])], [], []] = []) :=
  C4_amended_source_failure oracleGemFails oracleZeroW skipNone ["Acme"] "Acme" "Zed"
    (by simp) rfl rfl
    ([("ENV", RawData.arr [Elem.num 0, Elem.num 80])], []) [] [] []
    rfl rfl rfl rfl rfl rfl rfl

/-- C9: for every company for which the skip predicate returns true on its
formatted name, `analyze_companies` invokes none of the three evidence
sources and no competitor lookup for that company (no call event carries
its name), and the company's formatted name is absent from the returned
result mapping. -/
theorem C9_skipped (o : Oracles) (skip_company : String → Bool) (companies : List String)
    (c : String) (h : skip_company (string_standard_formatting c) = true) :
    (∀ e ∈ (analyze_companies companies o skip_company).2, e.isSourceCallFor c = false) ∧
    (∀ r, (analyze_companies companies o skip_company).1 = Except.ok r →
      lookupD r (string_standard_formatting c) = none) := by
  unfold analyze_companies
  suffices hinv : ∀ (l : List String)
      (st : Except Unit (List (String × CompanyRecord)) × List Event),
      (∀ e ∈ st.2, e.isSourceCallFor c = false) →
      (∀ r, st.1 = Except.ok r → lookupD r (string_standard_formatting c) = none) →
      (∀ e ∈ (l.foldl (pipelineStep o skip_company) st).2, e.isSourceCallFor c = false) ∧
      (∀ r, (l.foldl (pipelineStep o skip_company) st).1 = Except.ok r →
        lookupD r (string_standard_formatting c) = none) by
    apply hinv companies (Except.ok [], [])
    · intro e he; simp at he
    · intro r hr
      simp at hr
      subst hr
      rfl
  intro l
  induction l with
  | nil => intro st h1 h2; exact ⟨h1, h2⟩
  | cons d l ih =>
    intro st h1 h2
    rw [List.foldl_cons]
    apply ih
    · intro e he
      unfold pipelineStep at he
      cases hst : st.1 with
      | error e1 => rw [hst] at he; exact h1 e he
      | ok acc =>
        rw [hst] at he
        dsimp only at he
        by_cases hsk : skip_company (string_standard_formatting d) = true
        · rw [if_pos hsk] at he
          exact h1 e he
        · rw [if_neg hsk] at he
          have hdc : ¬ d = c := by
            intro hdc
            rw [hdc] at hsk
            exact hsk h
          rcases hr : runCompany o d with ⟨r1, evs⟩
          rw [hr] at he
          have hevs : ∀ e2 ∈ evs, Event.isSourceCallFor e2 c = false := by
            intro e2 he2
            have := runCompany_events o d e2 (by rw [hr]; exact he2)
            rcases this with h5 | h5 | h5 | h5 | h5 <;> rw [h5] <;>
              simp [Event.isSourceCallFor, hdc]
          cases r1 with
          | error e1 =>
            dsimp only at he
            rw [List.mem_append] at he
            rcases he with he | he
            · exact h1 e he
            · exact hevs e he
          | ok oacc =>
            cases oacc with
            | none =>
              dsimp only at he
              rw [List.mem_append] at he
              rcases he with he | he
              · exact h1 e he
              · exact hevs e he
            | some kr =>
              dsimp only at he
              rw [List.mem_append] at he
              rcases he with he | he
              · exact h1 e he
              · exact hevs e he
    · intro r hr
      unfold pipelineStep at hr
      cases hst : st.1 with
      | error e1 => rw [hst] at hr; exact h2 r hr
      | ok acc =>
        rw [hst] at hr
        dsimp only at hr
        by_cases hsk : skip_company (string_standard_formatting d) = true
        · rw [if_pos hsk] at hr
          exact h2 r hr
        · rw [if_neg hsk] at hr
          have hdc : ¬ string_standard_formatting d = string_standard_formatting c := by
            intro hdc
            rw [hdc] at hsk
            exact hsk h
          have hacc : lookupD acc (string_standard_formatting c) = none := h2 acc hst
          rcases hrc : runCompany o d with ⟨r1, evs⟩
          rw [hrc] at hr
          cases r1 with
          | error e1 => dsimp only at hr; exact absurd hr (by simp)
          | ok oacc =>
            cases oacc with
            | none =>
              dsimp only at hr
              have : acc = r := by simpa using hr
              rw [← this]
              exact hacc
            | some kr =>
              dsimp only at hr
              have hkr : dictInsert acc kr.1 kr.2 = r := by simpa using hr
              rw [← hkr]
              have hk1 : kr.1 = string_standard_formatting d :=
                runCompany_some_key o d kr evs hrc
              rw [lookupD_dictInsert_ne acc kr.1 _ kr.2 (by rw [hk1]; exact hdc)]
              exact hacc

/-- Witness for C9: with a skip predicate accepting the formatted name
`apple`, analyzing `["Apple!", "Google"]` produces no call event for
`Apple!` (e.g. the Google-source event of the other company is not a call
for it) and no `apple` key in the result. -/
theorem C9_witness :
    Event.isSourceCallFor (Event.google "Google") "Apple!" = false ∧
    lookupD ([] : List (String × CompanyRecord)) (string_standard_formatting "Apple!") = none := by
  have h := C9_skipped oracleEmpty skipApple ["Apple!", "Google"] "Apple!" (by decide)
  refine ⟨h.1 (Event.google "Google") ?_, h.2 [] ?_⟩
  · show Event.google "Google" ∈ (analyze_companies ["Apple!", "Google"] oracleEmpty skipApple).2
    decide
  · show (analyze_companies ["Apple!", "Google"] oracleEmpty skipApple).1 = Except.ok []
    rfl

/-- C10: the default skip predicate `empty_function_skip_company` returns
true for every company name, so `analyze_companies` called without an
explicit `skip_company` argument skips every company: no evidence source or
competitor lookup is ever invoked (empty trace) and the returned mapping is
empty, for every input list and every oracle behaviour. -/
theorem C10_default_skips_everything (companies : List String) (o : Oracles) (s : String) :
    empty_function_skip_company s = true ∧
    analyze_companies companies o = (Except.ok [], []) := by
  refine ⟨rfl, ?_⟩
  unfold analyze_companies
  induction companies with
  | nil => rfl
  | cons d l ih =>
    rw [List.foldl_cons]
    have hstep : pipelineStep o empty_function_skip_company (Except.ok [], []) d =
        (Except.ok [], []) := by
      unfold pipelineStep empty_function_skip_company
      simp
    rw [hstep]
    exact ih
